import Mathlib

/-!
Verification of the multi-runner comparison aggregation engine of the
ultra-smart repository: rest-period clustering, per-runner representative
selection, critical-segment ranking, per-runner summary projection and
input validation, embedded shallowly from the JavaScript source.

JavaScript numbers are embedded as rationals; JavaScript truthiness of a
possibly-absent numeric field (absent or 0 is falsy) and of a
possibly-absent string field (absent or empty is falsy) is made explicit
in the helper functions below.
-/

namespace UltraSmart

/-- Confidence tier of a detected rest event (`high`/`medium`/`low`). -/
inductive Confidence where
  | high
  | medium
  | low
deriving DecidableEq, Repr

/-- A rest event record, with the fields the aggregation engine reads.
Optional fields model possibly-absent JavaScript properties. -/
structure RestEvent where
  mile : Option ℚ
  start_mile : Option ℚ
  nearby_aid_station : Option String
  confidence : Option Confidence
  pace_during : Option ℚ
  actual_pace : Option ℚ
deriving DecidableEq, Repr

/-- Numeric value of a possibly-absent field: absent reads as 0
(JavaScript `x || 0` collapses `undefined` and `0` alike). -/
def qVal : Option ℚ → ℚ
  | none => 0
  | some q => q

/-- The resolved mile of a rest event: `rest.mile || rest.start_mile || 0`.
The `mile` field wins when present and nonzero (truthy), otherwise
`start_mile` (0 when that too is absent or zero). -/
def resolvedMile (e : RestEvent) : ℚ :=
  if qVal e.mile ≠ 0 then qVal e.mile else qVal e.start_mile

/-- The filter `rest.mile || rest.start_mile` (line 1602 of the source):
an event is kept for clustering iff either field is truthy. -/
def hasLocation (e : RestEvent) : Bool :=
  qVal e.mile ≠ 0 || qVal e.start_mile ≠ 0

/-- Aid-station identity: `rest.nearby_aid_station || 'Unknown'`.
An absent or empty (falsy) station reads as the sentinel. -/
def aidIdentity (e : RestEvent) : String :=
  match e.nearby_aid_station with
  | none => "Unknown"
  | some s => if s = "" then "Unknown" else s

/-- Truthiness of the `nearby_aid_station` field, as used by
`group.find(r => r.nearby_aid_station)`. -/
def aidTruthy (e : RestEvent) : Bool :=
  match e.nearby_aid_station with
  | none => false
  | some s => s ≠ ""

/-- Observed rest pace: `pace_during || actual_pace || 0`. -/
def restPace (e : RestEvent) : ℚ :=
  if qVal e.pace_during ≠ 0 then qVal e.pace_during else qVal e.actual_pace

/-- Confidence scoring from the selector: high=3, medium=2, low=1,
anything else (absent) = 0. -/
def confScore : Option Confidence → ℕ
  | some .high => 3
  | some .medium => 2
  | some .low => 1
  | none => 0

/-- A rest event tagged with the runner it came from (the source spreads
`runnerId` into each rest object before grouping). -/
structure TaggedRest where
  runnerId : ℕ
  rest : RestEvent
deriving DecidableEq, Repr

/-- A runner's rest data arrives either as an object nesting a
`rest_periods` array or as a bare array of rest events. -/
inductive RestData where
  | nested (events : List RestEvent)
  | flat (events : List RestEvent)
deriving DecidableEq, Repr

/-- The read `analysis?.rest_periods?.rest_periods || analysis?.rest_periods || []`:
the nested array when the wrapper shape is used, the bare array otherwise,
empty when rest data is absent. -/
def restList : Option RestData → List RestEvent
  | none => []
  | some (.nested l) => l
  | some (.flat l) => l

/-- Fatigue section of a runner analysis. -/
structure FatigueAnalysis where
  average_fatigue : Option ℚ
  peak_fatigue_mile : Option ℚ
deriving DecidableEq, Repr

/-- One per-runner, per-segment performance record. -/
structure SegPerf where
  segment_name : String
  difficulty_rating : Option ℚ
  performance_score : Option ℚ
deriving DecidableEq, Repr

/-- Course section of a runner analysis. -/
structure CourseAnalysis where
  strongest_terrain : Option String
  elevation_tolerance : Option String
  segment_analysis : Option (List SegPerf)
deriving DecidableEq, Repr

/-- A per-runner analysis record, with the sections the engine reads.
Every section is optional: the engine tolerates missing parts. -/
structure Analysis where
  fatigue_analysis : Option FatigueAnalysis
  course_analysis : Option CourseAnalysis
  rest_periods : Option RestData
deriving DecidableEq, Repr

/-- The rest events of one selected runner, as read at line 1593:
absent analysis contributes nothing. -/
def runnerRests (analyses : ℕ → Option Analysis) (rid : ℕ) : List RestEvent :=
  match analyses rid with
  | none => []
  | some a => restList a.rest_periods

/-- The flattened clustering input: for each selected runner in order, the
runner's rest events restricted to those with a resolvable mile, each
tagged with the runner id (lines 1590-1620). -/
def flatRests (selected : List ℕ) (analyses : ℕ → Option Analysis) :
    List TaggedRest :=
  selected.flatMap fun rid =>
    ((runnerRests analyses rid).filter hasLocation).map fun r =>
      { runnerId := rid, rest := r }

/-- Mile comparison used to sort the flattened rest events ascending
(the JavaScript comparator `aMile - bMile`, a stable sort). -/
def mileLE (a b : TaggedRest) : Bool :=
  decide (resolvedMile a.rest ≤ resolvedMile b.rest)

/-- The clustering input sorted ascending by resolved mile (line 1627).
JavaScript `Array.prototype.sort` is stable, as is `mergeSort`. -/
def sortedRests (selected : List ℕ) (analyses : ℕ → Option Analysis) :
    List TaggedRest :=
  (flatRests selected analyses).mergeSort mileLE

/-- The running mean mile of a cluster (recomputed over its members by a
`reduce` each time it is consulted). -/
def groupMean (g : List TaggedRest) : ℚ :=
  (g.map fun t => resolvedMile t.rest).sum / g.length

/-- A cluster's aid-station identity: that of its first member
(`group[0].nearby_aid_station || 'Unknown'`). -/
def groupAid (g : List TaggedRest) : String :=
  match g with
  | [] => "Unknown"
  | t :: _ => aidIdentity t.rest

/-- Cluster-membership test (line 1645): same aid-station identity and
mile within the 5.0-mile variance threshold of the running mean. -/
def matchesGroup (g : List TaggedRest) (t : TaggedRest) : Bool :=
  groupAid g = aidIdentity t.rest &&
    decide (|resolvedMile t.rest - groupMean g| ≤ 5)

/-- One step of the greedy clustering loop (lines 1634-1656): scan open
clusters in order, append to the first matching one, otherwise open a
new singleton cluster at the end. -/
def addRest (groups : List (List TaggedRest)) (t : TaggedRest) :
    List (List TaggedRest) :=
  match groups with
  | [] => [[t]]
  | g :: gs => if matchesGroup g t then (g ++ [t]) :: gs else g :: addRest gs t

/-- The clusters formed from the sorted input. -/
def restGroups (selected : List ℕ) (analyses : ℕ → Option Analysis) :
    List (List TaggedRest) :=
  (sortedRests selected analyses).foldl addRest []

/-- Comparator sorting clusters ascending by mean mile (line 1659). -/
def groupLE (g₁ g₂ : List TaggedRest) : Bool :=
  decide (groupMean g₁ ≤ groupMean g₂)

/-- The final cluster list, sorted ascending by mean mile. -/
def sortedGroups (selected : List ℕ) (analyses : ℕ → Option Analysis) :
    List (List TaggedRest) :=
  (restGroups selected analyses).mergeSort groupLE

/-- The selector's pairwise comparison (lines 1772-1800): keep `current`
over `best` iff it has strictly higher confidence score, or equal
confidence and strictly higher rest pace, or equal both and strictly
smaller absolute distance to the cluster mean mile. -/
def better (avg : ℚ) (best current : TaggedRest) : TaggedRest :=
  if confScore current.rest.confidence > confScore best.rest.confidence then
    current
  else if confScore best.rest.confidence > confScore current.rest.confidence then
    best
  else if restPace current.rest > restPace best.rest then current
  else if restPace best.rest > restPace current.rest then best
  else if |resolvedMile current.rest - avg| < |resolvedMile best.rest - avg| then
    current
  else best

/-- The documented strict preference relation of the selector: higher
confidence tier, then higher observed rest pace, then smaller absolute
distance to the cluster mean mile. -/
def prefers (avg : ℚ) (a b : TaggedRest) : Bool :=
  if confScore a.rest.confidence > confScore b.rest.confidence then true
  else if confScore b.rest.confidence > confScore a.rest.confidence then false
  else if restPace a.rest > restPace b.rest then true
  else if restPace b.rest > restPace a.rest then false
  else decide (|resolvedMile a.rest - avg| < |resolvedMile b.rest - avg|)

/-- The derived key triple the selector actually compares on. -/
def selKey (avg : ℚ) (a : TaggedRest) : ℕ × ℚ × ℚ :=
  (confScore a.rest.confidence, restPace a.rest, |resolvedMile a.rest - avg|)

/-- The pick `runnerRests.length > 0 ? runnerRests.reduce(...) : null`: the chosen
representative of a nonempty candidate list, via a `reduce` seeded with
the first element. -/
def chooseBest (avg : ℚ) : List TaggedRest → Option TaggedRest
  | [] => none
  | x :: xs => some (xs.foldl (better avg) x)

/-- The events a given runner contributed to a cluster
(`group.filter(r => r.runnerId == runnerId)`). -/
def runnerEvents (g : List TaggedRest) (rid : ℕ) : List TaggedRest :=
  g.filter fun t => t.runnerId == rid

/-- The representative aid-station name shown on placeholder cards:
`group.find(r => r.nearby_aid_station)?.nearby_aid_station || ''`. -/
def repAidStation (g : List TaggedRest) : String :=
  match g.find? fun t => aidTruthy t.rest with
  | none => ""
  | some t => (t.rest.nearby_aid_station).getD ""

/-- One output record of the selector: a real rest card or an explicit
placeholder carrying the cluster mean mile and a representative
aid-station name, each attributed to one selected runner. -/
inductive Card where
  | real (runnerId : ℕ) (t : TaggedRest)
  | placeholder (runnerId : ℕ) (avgMile : ℚ) (aidStation : String)
deriving DecidableEq, Repr

/-- The runner a card belongs to. -/
def cardRunner : Card → ℕ
  | .real rid _ => rid
  | .placeholder rid _ _ => rid

/-- The selector's combined output for one cluster: one card per selected
runner, in selection order (lines 1768-1808). -/
def groupCards (selected : List ℕ) (g : List TaggedRest) : List Card :=
  selected.map fun rid =>
    match chooseBest (groupMean g) (runnerEvents g rid) with
    | some t => Card.real rid t
    | none => Card.placeholder rid (groupMean g) (repAidStation g)

/-- One flattened segment-performance contribution (lines 1936-1942):
missing difficulty or performance reads as 0 via `|| 0`. -/
structure PerfRec where
  name : String
  difficulty : ℚ
  performance : ℚ
  runnerId : ℕ
deriving DecidableEq, Repr

/-- The flattened per-runner segment contributions, in selection order;
a runner without a course analysis or segment list contributes nothing
(lines 1933-1945). -/
def segmentPerformances (selected : List ℕ) (analyses : ℕ → Option Analysis) :
    List PerfRec :=
  selected.flatMap fun rid =>
    match analyses rid with
    | none => []
    | some a =>
      match a.course_analysis with
      | none => []
      | some ca =>
        match ca.segment_analysis with
        | none => []
        | some segs =>
          segs.map fun s =>
            { name := s.segment_name
              difficulty := qVal s.difficulty_rating
              performance := qVal s.performance_score
              runnerId := rid }

/-- Accumulated per-name statistics (lines 1948-1956): the lists of
contributed difficulties and performances and the contribution count. -/
structure SegEntry where
  name : String
  difficulties : List ℚ
  performances : List ℚ
  count : ℕ
deriving DecidableEq, Repr

/-- Fold step building `segmentStats`: push onto the entry with this name
(entries are keyed by name, in first-encounter order), creating it at the
end when absent. -/
def statsUpdate : List SegEntry → PerfRec → List SegEntry
  | [], p => [{ name := p.name, difficulties := [p.difficulty],
                performances := [p.performance], count := 1 }]
  | e :: es, p =>
    if e.name = p.name then
      { name := e.name
        difficulties := e.difficulties ++ [p.difficulty]
        performances := e.performances ++ [p.performance]
        count := e.count + 1 } :: es
    else e :: statsUpdate es p

/-- The per-name statistics, keyed in first-encounter order (mirroring a
JavaScript object with string keys in insertion order). -/
def segmentStats (perfs : List PerfRec) : List SegEntry :=
  perfs.foldl statsUpdate []

/-- One ranked critical segment: name, mean difficulty, mean performance
and contribution count (lines 1959-1965). -/
structure SegStat where
  name : String
  avgDifficulty : ℚ
  avgPerformance : ℚ
  count : ℕ
deriving DecidableEq, Repr

/-- The ranked aggregate computed from one accumulated entry: means of
the contributed difficulties and performances over the contribution
count (lines 1960-1964). -/
def statMk (e : SegEntry) : SegStat :=
  { name := e.name
    avgDifficulty := e.difficulties.sum / e.count
    avgPerformance := e.performances.sum / e.count
    count := e.count }

/-- The unsorted ranking entries, one per distinct segment name in
first-encounter order, with means taken over contributions only. -/
def statEntries (perfs : List PerfRec) : List SegStat :=
  (segmentStats perfs).map statMk

/-- Descending-by-mean-difficulty comparator
(`(a, b) => b.avgDifficulty - a.avgDifficulty`, stable). -/
def diffGE (a b : SegStat) : Bool :=
  decide (b.avgDifficulty ≤ a.avgDifficulty)

/-- The critical-segments ranking: distinct segments sorted descending by
mean difficulty (stable on ties), first 5 taken (lines 1959-1967). -/
def criticalSegments (selected : List ℕ) (analyses : ℕ → Option Analysis) :
    List SegStat :=
  (((statEntries (segmentPerformances selected analyses)).mergeSort
    diffGE).take 5)

/-- The top-level analyses payload, as seen by input validation. -/
structure AnalysesPayload where
  status : String
  error : Option String
deriving DecidableEq, Repr

/-- The runner-selection state passed to input validation; the selected
list itself may be absent (undefined). -/
structure RunnersState where
  selectedRunners : Option (List ℕ)
deriving DecidableEq, Repr

/-- Validation from `BaseRunnerAnalysis` (lines 41-48): throw when the
selected-runner list is falsy (absent; a JavaScript array, even empty, is
truthy), else throw when the payload status is "failed", carrying its
error message or the default; otherwise accept. -/
def validateInputs (analyses : AnalysesPayload) (runners : RunnersState) :
    Except String Unit :=
  if runners.selectedRunners = none then
    Except.error "Missing runner data"
  else if analyses.status = "failed" then
    Except.error
      (match analyses.error with
       | none => "Analysis failed"
       | some e => if e = "" then "Analysis failed" else e)
  else Except.ok ()

/-- Whether validation aborts the whole comparison. -/
def validationFails (analyses : AnalysesPayload) (runners : RunnersState) :
    Bool :=
  match validateInputs analyses runners with
  | Except.error _ => true
  | Except.ok _ => false

/-- A summary-table cell: either a sentinel string or a numeric value
(numeric display formatting is abstracted to the number itself; a
formatted number is a nonempty, hence truthy, string). -/
inductive SummaryCell where
  | sentinel (s : String)
  | num (q : ℚ)
deriving DecidableEq, Repr

/-- The cell `analysis.fatigue_analysis?.average_fatigue?.toFixed(2) || 'N/A'`. -/
def averageFatigueCell (a : Analysis) : SummaryCell :=
  match a.fatigue_analysis with
  | none => .sentinel "N/A"
  | some fa =>
    match fa.average_fatigue with
    | none => .sentinel "N/A"
    | some q => .num q

/-- The cell `analysis.fatigue_analysis?.peak_fatigue_mile || 'N/A'` (a zero mile
is falsy and also reads as the sentinel). -/
def peakFatigueMileCell (a : Analysis) : SummaryCell :=
  match a.fatigue_analysis with
  | none => .sentinel "N/A"
  | some fa =>
    match fa.peak_fatigue_mile with
    | none => .sentinel "N/A"
    | some q => if q = 0 then .sentinel "N/A" else .num q

/-- The count `analysis.rest_periods?.rest_periods?.length || analysis.rest_periods?.length || 0`:
the nested collection length when the wrapper shape is used, the bare
array length otherwise, 0 when rest data is absent (a wrapper object has
no `length`, and a zero nested length falls through to 0 all the same). -/
def restCount (a : Analysis) : ℕ :=
  match a.rest_periods with
  | none => 0
  | some (.nested l) => if l.length ≠ 0 then l.length else 0
  | some (.flat l) => l.length

/-- The cell `analysis.course_analysis?.strongest_terrain || 'Unknown'`. -/
def strongestTerrainVal (a : Analysis) : String :=
  match a.course_analysis with
  | none => "Unknown"
  | some ca =>
    match ca.strongest_terrain with
    | none => "Unknown"
    | some s => if s = "" then "Unknown" else s

/-- The cell `analysis.course_analysis?.elevation_tolerance || 'Unknown'`. -/
def elevationToleranceVal (a : Analysis) : String :=
  match a.course_analysis with
  | none => "Unknown"
  | some ca =>
    match ca.elevation_tolerance with
    | none => "Unknown"
    | some s => if s = "" then "Unknown" else s

/-- One row of the multi-runner summary table (lines 1092-1097), a total
projection of a runner analysis. -/
structure SummaryRow where
  averageFatigue : SummaryCell
  peakFatigueMile : SummaryCell
  restCount : ℕ
  strongestTerrain : String
  elevationTolerance : String
deriving DecidableEq, Repr

/-- The per-runner summary projection. -/
def summaryRow (a : Analysis) : SummaryRow :=
  { averageFatigue := averageFatigueCell a
    peakFatigueMile := peakFatigueMileCell a
    restCount := restCount a
    strongestTerrain := strongestTerrainVal a
    elevationTolerance := elevationToleranceVal a }

/-- Insertion step of first-occurrence deduplication. -/
def dedupStep (acc : List String) (x : String) : List String :=
  if x ∈ acc then acc else acc ++ [x]

/-- The distinct values of a list, in first-encounter order (the key
order of a JavaScript object built by insertion). -/
def firstDedup (l : List String) : List String :=
  l.foldl dedupStep []

/-- Folding the contributions with a given name into an optional running
statistics entry, mirroring what `statsUpdate` does to that entry. -/
def entryFoldStep (q : String) (o : Option SegEntry) (p : PerfRec) :
    Option SegEntry :=
  match o with
  | none => some { name := q, difficulties := [p.difficulty],
                   performances := [p.performance], count := 1 }
  | some e => some { name := e.name
                     difficulties := e.difficulties ++ [p.difficulty]
                     performances := e.performances ++ [p.performance]
                     count := e.count + 1 }

/-! ### Concrete sample data used by witnesses and counterexamples -/

/-- A high-confidence rest event of runner 1 at mile 77. -/
def sampleHi : TaggedRest :=
  { runnerId := 1
    rest := { mile := some 77, start_mile := none
              nearby_aid_station := some "Whiskey Row"
              confidence := some Confidence.high
              pace_during := some 25, actual_pace := none } }

/-- A low-confidence rest event of runner 1 at mile 79, same station. -/
def sampleLo : TaggedRest :=
  { runnerId := 1
    rest := { mile := some 79, start_mile := none
              nearby_aid_station := some "Whiskey Row"
              confidence := some Confidence.low
              pace_during := some 10, actual_pace := none } }

/-- A two-event cluster of runner 1 containing the low- and
high-confidence events, in that order. -/
def sampleGroup : List TaggedRest := [sampleLo, sampleHi]

/-- An anonymous-confidence rest event at mile 73. -/
def eqDistA : TaggedRest :=
  { runnerId := 1
    rest := { mile := some 73, start_mile := none, nearby_aid_station := none
              confidence := none, pace_during := none, actual_pace := none } }

/-- An anonymous-confidence rest event at mile 77: relative to the mean
mile 75 of the cluster formed by the two events, it is exactly as far as
the mile-73 one. -/
def eqDistB : TaggedRest :=
  { runnerId := 1
    rest := { mile := some 77, start_mile := none, nearby_aid_station := none
              confidence := none, pace_during := none, actual_pace := none } }

/-- A runner analysis with every section missing. -/
def emptyAnalysis : Analysis :=
  { fatigue_analysis := none, course_analysis := none, rest_periods := none }

/-- Scenario D segment: Crown King to Whiskey Row at difficulty 3.5. -/
def crownSeg1 : SegPerf :=
  { segment_name := "Crown King to Whiskey Row"
    difficulty_rating := some (7/2), performance_score := some (1/2) }

/-- Scenario D segment: Crown King to Whiskey Row at difficulty 4.5. -/
def crownSeg2 : SegPerf :=
  { segment_name := "Crown King to Whiskey Row"
    difficulty_rating := some (9/2), performance_score := some (1/2) }

/-- A second segment at difficulty 3.0. -/
def flatSeg : SegPerf :=
  { segment_name := "Flats"
    difficulty_rating := some 3, performance_score := some 1 }

/-- An analysis carrying only a segment list. -/
def segOnlyAnalysis (segs : List SegPerf) : Analysis :=
  { fatigue_analysis := none
    course_analysis := some { strongest_terrain := none
                              elevation_tolerance := none
                              segment_analysis := some segs }
    rest_periods := none }

/-- Two runners sharing the Scenario D segment. -/
def analysesPair : ℕ → Option Analysis := fun rid =>
  if rid = 1 then some (segOnlyAnalysis [crownSeg1])
  else if rid = 2 then some (segOnlyAnalysis [crownSeg2])
  else none

/-- The expected aggregate for the Scenario D segment. -/
def sCrown : SegStat :=
  { name := "Crown King to Whiskey Row"
    avgDifficulty := 4, avgPerformance := 1/2, count := 2 }

/-- A segment named Alpha at difficulty 3. -/
def segX : SegPerf :=
  { segment_name := "Alpha", difficulty_rating := some 3
    performance_score := some 1 }

/-- A segment named Beta, also at difficulty 3. -/
def segY : SegPerf :=
  { segment_name := "Beta", difficulty_rating := some 3
    performance_score := some 1 }

/-- Two runners whose single segments tie on mean difficulty. -/
def analysesTie : ℕ → Option Analysis := fun rid =>
  if rid = 1 then some (segOnlyAnalysis [segX])
  else if rid = 2 then some (segOnlyAnalysis [segY])
  else none

/-- One runner carrying the two Whiskey Row rest events as a flat list. -/
def analysesRest : ℕ → Option Analysis := fun rid =>
  if rid = 1 then
    some { fatigue_analysis := none, course_analysis := none
           rest_periods := some (RestData.flat [sampleHi.rest, sampleLo.rest]) }
  else none

/-- A rest event recorded at exactly mile 0 with no start mile. -/
def mileZeroEvent : RestEvent :=
  { mile := some 0, start_mile := none, nearby_aid_station := none
    confidence := none, pace_during := none, actual_pace := none }

/-! ### Algebra of the selector preference relation -/

theorem prefers_irrefl (avg : ℚ) (a : TaggedRest) : prefers avg a a = false := by
  simp [prefers]

theorem prefers_iff (avg : ℚ) (a b : TaggedRest) : prefers avg a b = true ↔
    (confScore b.rest.confidence < confScore a.rest.confidence ∨
      (confScore a.rest.confidence = confScore b.rest.confidence ∧
        (restPace b.rest < restPace a.rest ∨
          (restPace a.rest = restPace b.rest ∧
            |resolvedMile a.rest - avg| < |resolvedMile b.rest - avg|)))) := by
  unfold prefers
  by_cases h1 : confScore a.rest.confidence > confScore b.rest.confidence
  · rw [if_pos h1]; simp only [true_iff]
    exact Or.inl h1
  · by_cases h2 : confScore b.rest.confidence > confScore a.rest.confidence
    · rw [if_neg h1, if_pos h2]
      simp only [Bool.false_eq_true, false_iff]
      rintro (h | ⟨heq, _⟩) <;> omega
    · have hc : confScore a.rest.confidence = confScore b.rest.confidence := by
        omega
      rw [if_neg h1, if_neg h2]
      by_cases h3 : restPace a.rest > restPace b.rest
      · rw [if_pos h3]; simp only [true_iff]
        exact Or.inr ⟨hc, Or.inl h3⟩
      · by_cases h4 : restPace b.rest > restPace a.rest
        · rw [if_neg h3, if_pos h4]
          simp only [Bool.false_eq_true, false_iff]
          rintro (h | ⟨_, h | ⟨hp, _⟩⟩) <;> first | omega | linarith
        · have hp : restPace a.rest = restPace b.rest :=
            le_antisymm (not_lt.mp h3) (not_lt.mp h4)
          rw [if_neg h3, if_neg h4]
          simp only [decide_eq_true_eq]
          constructor
          · intro hd
            exact Or.inr ⟨hc, Or.inr ⟨hp, hd⟩⟩
          · rintro (h | ⟨_, h | ⟨_, hd⟩⟩)
            · omega
            · linarith
            · exact hd

theorem better_eq (avg : ℚ) (b c : TaggedRest) :
    better avg b c = if prefers avg c b then c else b := by
  unfold better prefers
  split_ifs <;> simp_all
  exfalso; linarith

theorem prefers_asymm (avg : ℚ) (a b : TaggedRest)
    (h : prefers avg a b = true) : prefers avg b a = false := by
  rw [prefers_iff] at h
  rw [Bool.eq_false_iff, Ne, prefers_iff]
  rcases h with h | ⟨h₁, h | ⟨h₂, h₃⟩⟩ <;>
    rintro (h' | ⟨h₁', h' | ⟨h₂', h₃'⟩⟩) <;> first | omega | linarith

theorem prefers_trans (avg : ℚ) (a b c : TaggedRest)
    (hab : prefers avg a b = true) (hbc : prefers avg b c = true) :
    prefers avg a c = true := by
  rw [prefers_iff] at hab hbc ⊢
  rcases hab with h | ⟨h₁, h | ⟨h₂, h₃⟩⟩ <;>
    rcases hbc with h' | ⟨h₁', h' | ⟨h₂', h₃'⟩⟩ <;>
      first
        | (left; omega)
        | (exact Or.inr ⟨by omega, Or.inl (by linarith)⟩)
        | (exact Or.inr ⟨by omega, Or.inr ⟨by linarith, by linarith⟩⟩)

theorem prefers_eq_false_iff (avg : ℚ) (a b : TaggedRest) :
    prefers avg a b = false ↔
    (confScore a.rest.confidence < confScore b.rest.confidence ∨
      (confScore a.rest.confidence = confScore b.rest.confidence ∧
        (restPace a.rest < restPace b.rest ∨
          (restPace a.rest = restPace b.rest ∧
            |resolvedMile b.rest - avg| ≤ |resolvedMile a.rest - avg|)))) := by
  rw [Bool.eq_false_iff, Ne, prefers_iff]
  constructor
  · intro h
    rcases Nat.lt_trichotomy (confScore a.rest.confidence)
      (confScore b.rest.confidence) with hc | hc | hc
    · exact Or.inl hc
    · rcases lt_trichotomy (restPace a.rest) (restPace b.rest) with hp | hp | hp
      · exact Or.inr ⟨hc, Or.inl hp⟩
      · refine Or.inr ⟨hc, Or.inr ⟨hp, ?_⟩⟩
        by_contra hd
        exact h (Or.inr ⟨hc, Or.inr ⟨hp, by linarith⟩⟩)
      · exact absurd (Or.inr ⟨hc, Or.inl hp⟩) h
    · exact absurd (Or.inl hc) h
  · rintro (h | ⟨h₁, h | ⟨h₂, h₃⟩⟩) (h' | ⟨h₁', h' | ⟨h₂', h₃'⟩⟩) <;>
      first | omega | linarith

theorem not_prefers_trans (avg : ℚ) (a b c : TaggedRest)
    (hab : prefers avg a b = false) (hbc : prefers avg b c = false) :
    prefers avg a c = false := by
  rw [prefers_eq_false_iff] at hab hbc ⊢
  rcases hab with h | ⟨h₁, h | ⟨h₂, h₃⟩⟩ <;>
    rcases hbc with h' | ⟨h₁', h' | ⟨h₂', h₃'⟩⟩ <;>
      first
        | (left; omega)
        | (exact Or.inr ⟨by omega, Or.inl (by linarith)⟩)
        | (exact Or.inr ⟨by omega, Or.inr ⟨by linarith, by linarith⟩⟩)

theorem prefers_total_of_key_ne (avg : ℚ) (a b : TaggedRest)
    (h : selKey avg a ≠ selKey avg b) :
    prefers avg a b = true ∨ prefers avg b a = true := by
  rcases Nat.lt_trichotomy (confScore a.rest.confidence)
    (confScore b.rest.confidence) with hc | hc | hc
  · exact Or.inr ((prefers_iff avg b a).mpr (Or.inl hc))
  · rcases lt_trichotomy (restPace a.rest) (restPace b.rest) with hp | hp | hp
    · exact Or.inr ((prefers_iff avg b a).mpr (Or.inr ⟨hc.symm, Or.inl hp⟩))
    · rcases lt_trichotomy (|resolvedMile a.rest - avg|)
        (|resolvedMile b.rest - avg|) with hd | hd | hd
      · exact Or.inl ((prefers_iff avg a b).mpr (Or.inr ⟨hc, Or.inr ⟨hp, hd⟩⟩))
      · exact absurd (by simp [selKey, hc, hp, hd]) h
      · exact Or.inr
          ((prefers_iff avg b a).mpr (Or.inr ⟨hc.symm, Or.inr ⟨hp.symm, hd⟩⟩))
    · exact Or.inl ((prefers_iff avg a b).mpr (Or.inr ⟨hc, Or.inl hp⟩))
  · exact Or.inl ((prefers_iff avg a b).mpr (Or.inl hc))

/-! ### Maximality of the reduce-based selector -/

theorem foldl_better_mem (avg : ℚ) (xs : List TaggedRest) :
    ∀ x, xs.foldl (better avg) x ∈ x :: xs := by
  induction xs with
  | nil => intro x; simp
  | cons y ys ih =>
    intro x
    simp only [List.foldl_cons]
    rcases List.mem_cons.mp (ih (better avg x y)) with h | h
    · rw [h, better_eq]
      split_ifs <;> simp
    · exact List.mem_cons_of_mem _ (List.mem_cons_of_mem _ h)

theorem foldl_better_max (avg : ℚ) (xs : List TaggedRest) :
    ∀ x e, e ∈ x :: xs → prefers avg e (xs.foldl (better avg) x) = false := by
  induction xs with
  | nil =>
    intro x e he
    rw [List.mem_singleton] at he
    subst he
    simpa using prefers_irrefl avg e
  | cons y ys ih =>
    intro x e he
    simp only [List.foldl_cons]
    by_cases hp : prefers avg y x = true
    · have hacc : better avg x y = y := by rw [better_eq, if_pos hp]
      rw [hacc]
      rcases List.mem_cons.mp he with he₁ | he₂
      · subst he₁
        have hy : prefers avg y (ys.foldl (better avg) y) = false :=
          ih y y (List.mem_cons_self y ys)
        by_contra hx
        rw [Bool.not_eq_false] at hx
        have htr := prefers_trans avg y e (ys.foldl (better avg) y) hp hx
        rw [htr] at hy
        exact Bool.noConfusion hy
      · exact ih y e he₂
    · have hacc : better avg x y = x := by
        rw [better_eq, if_neg (by simpa using hp)]
      rw [hacc]
      rcases List.mem_cons.mp he with he₁ | he₂
      · subst he₁
        exact ih e e (List.mem_cons_self e ys)
      · rcases List.mem_cons.mp he₂ with he₃ | he₄
        · subst he₃
          exact not_prefers_trans avg e x (ys.foldl (better avg) x)
            (by simpa using hp) (ih x x (List.mem_cons_self x ys))
        · exact ih x e (List.mem_cons_of_mem x he₄)

/-- C1: for every cluster and every runner, a chosen representative is a
member of the runner's contributed events and is maximal under the
documented order (no contributed event is strictly preferred over it);
in particular, of a high-confidence and a low-confidence event the
high-confidence one is chosen regardless of the order of appearance. -/
theorem c1_selector_chooses_maximum :
    (∀ (g : List TaggedRest) (rid : ℕ) (c : TaggedRest),
      chooseBest (groupMean g) (runnerEvents g rid) = some c →
        c ∈ runnerEvents g rid ∧
          ∀ e ∈ runnerEvents g rid, prefers (groupMean g) e c = false) ∧
    (∀ (avg : ℚ) (hi lo : TaggedRest),
      hi.rest.confidence = some Confidence.high →
      lo.rest.confidence = some Confidence.low →
        chooseBest avg [hi, lo] = some hi ∧ chooseBest avg [lo, hi] = some hi) := by
  constructor
  · intro g rid c hc
    cases hev : runnerEvents g rid with
    | nil =>
      rw [hev] at hc
      exact absurd hc (by simp [chooseBest])
    | cons x xs =>
      rw [hev] at hc
      simp only [chooseBest, Option.some.injEq] at hc
      subst hc
      exact ⟨foldl_better_mem (groupMean g) xs x,
        foldl_better_max (groupMean g) xs x⟩
  · intro avg hi lo hhi hlo
    have h1 : prefers avg lo hi = false := by
      unfold prefers
      rw [if_neg (by simp [hhi, hlo, confScore]), if_pos (by simp [hhi, hlo, confScore])]
    have h2 : prefers avg hi lo = true := by
      unfold prefers
      rw [if_pos (by simp [hhi, hlo, confScore])]
    constructor
    · simp [chooseBest, better_eq, h1]
    · simp [chooseBest, better_eq, h2]

theorem c1_witness :
    chooseBest (groupMean sampleGroup) (runnerEvents sampleGroup 1) =
      some sampleHi ∧
    sampleHi ∈ runnerEvents sampleGroup 1 ∧
    prefers (groupMean sampleGroup) sampleLo sampleHi = false := by
  have h : chooseBest (groupMean sampleGroup) (runnerEvents sampleGroup 1) =
      some sampleHi := by decide
  have hm := c1_selector_chooses_maximum.1 sampleGroup 1 sampleHi h
  exact ⟨h, hm.1, hm.2 sampleLo (by decide)⟩

/-- C6 (corrected): the selector preference is a strict weak order:
asymmetric, transitive, and total on candidates whose derived key triples
(confidence score, resolved rest pace, absolute distance to the cluster
mean mile) differ, with exactly one of the two preferred in that case. -/
theorem c6_amended_strict_weak_order :
    (∀ (avg : ℚ) (a b : TaggedRest),
      prefers avg a b = true → prefers avg b a = false) ∧
    (∀ (avg : ℚ) (a b c : TaggedRest),
      prefers avg a b = true → prefers avg b c = true →
        prefers avg a c = true) ∧
    (∀ (avg : ℚ) (a b : TaggedRest), selKey avg a ≠ selKey avg b →
      (prefers avg a b = true ∧ prefers avg b a = false) ∨
      (prefers avg b a = true ∧ prefers avg a b = false)) := by
  refine ⟨prefers_asymm, prefers_trans, ?_⟩
  intro avg a b h
  rcases prefers_total_of_key_ne avg a b h with h₁ | h₁
  · exact Or.inl ⟨h₁, prefers_asymm avg a b h₁⟩
  · exact Or.inr ⟨h₁, prefers_asymm avg b a h₁⟩

theorem c6_witness :
    prefers 75 sampleHi sampleLo = false ∨
    (prefers 75 sampleHi sampleLo = true ∧ prefers 75 sampleLo sampleHi = false) := by
  rcases c6_amended_strict_weak_order.2.2 75 sampleHi sampleLo
    (by simp [selKey, confScore, sampleHi, sampleLo]) with h | h
  · exact Or.inr h
  · exact Or.inl h.2

/-- C6 counterexample: two distinct candidate events whose (confidence,
pace, mile) attributes differ (miles 73 and 77), yet relative to the mean
mile of the cluster they form neither is preferred over the other: the
relation as claimed is not total on events with differing attributes. -/
theorem c6_counterexample :
    (eqDistA.rest.confidence, restPace eqDistA.rest, resolvedMile eqDistA.rest) ≠
      (eqDistB.rest.confidence, restPace eqDistB.rest, resolvedMile eqDistB.rest) ∧
    groupMean [eqDistA, eqDistB] = 75 ∧
    prefers (groupMean [eqDistA, eqDistB]) eqDistA eqDistB = false ∧
    prefers (groupMean [eqDistA, eqDistB]) eqDistB eqDistA = false := by
  have hmean : groupMean [eqDistA, eqDistB] = 75 := by
    simp [groupMean, resolvedMile, qVal, eqDistA, eqDistB]
    norm_num
  refine ⟨by decide, hmean, ?_, ?_⟩ <;>
    rw [hmean] <;>
      simp [prefers, eqDistA, eqDistB, confScore, restPace, resolvedMile,
        qVal] <;>
        norm_num

/-! ### Characterization of the greedy clustering step -/

theorem addRest_eq (groups : List (List TaggedRest)) (t : TaggedRest) :
    addRest groups t =
      if h : groups.findIdx (fun g => matchesGroup g t) < groups.length then
        groups.set (groups.findIdx (fun g => matchesGroup g t))
          (groups.get ⟨groups.findIdx (fun g => matchesGroup g t), h⟩ ++ [t])
      else groups ++ [[t]] := by
  induction groups with
  | nil => simp [addRest]
  | cons g gs ih =>
    by_cases hm : matchesGroup g t = true
    · rw [addRest, if_pos hm]
      have hidx : (g :: gs).findIdx (fun x => matchesGroup x t) = 0 := by
        simp [List.findIdx_cons, hm]
      rw [dif_pos (by rw [hidx]; exact Nat.succ_pos _)]
      simp [hidx]
    · rw [addRest, if_neg hm]
      have hidx : (g :: gs).findIdx (fun x => matchesGroup x t) =
          (gs.findIdx fun x => matchesGroup x t) + 1 := by
        simp [List.findIdx_cons, Bool.eq_false_iff.mpr hm]
      rw [ih]
      by_cases h₂ : gs.findIdx (fun x => matchesGroup x t) < gs.length
      · rw [dif_pos h₂,
          dif_pos (by rw [hidx]; simpa using Nat.succ_lt_succ h₂)]
        simp [hidx]
      · rw [dif_neg h₂,
          dif_neg (by rw [hidx]
                      exact fun hh => h₂ (by simpa using Nat.lt_of_succ_lt_succ hh))]
        simp

/-- C2: an event joins an existing cluster iff the cluster has the same
aid-station identity and the event's resolved mile lies within 5.0 of the
cluster's current mean mile; the first qualifying cluster in scan order
receives the event (appended at its end, all other clusters unchanged),
and when no cluster qualifies a new singleton cluster is opened at the
end of the list. -/
theorem c2_cluster_membership (groups : List (List TaggedRest)) (t : TaggedRest) :
    (∀ g, matchesGroup g t = true ↔
      (groupAid g = aidIdentity t.rest ∧
        |resolvedMile t.rest - groupMean g| ≤ 5)) ∧
    (groups.findIdx (fun g => matchesGroup g t) = groups.length →
      addRest groups t = groups ++ [[t]]) ∧
    (∀ hlt : groups.findIdx (fun g => matchesGroup g t) < groups.length,
      addRest groups t =
        groups.set (groups.findIdx (fun g => matchesGroup g t))
          (groups.get ⟨groups.findIdx (fun g => matchesGroup g t), hlt⟩ ++ [t]) ∧
      matchesGroup
        (groups.get ⟨groups.findIdx (fun g => matchesGroup g t), hlt⟩) t = true ∧
      ∀ j (hj : j < groups.findIdx (fun g => matchesGroup g t)),
        matchesGroup (groups.get ⟨j, Nat.lt_trans hj hlt⟩) t = false) := by
  refine ⟨?_, ?_, ?_⟩
  · intro g
    simp [matchesGroup]
  · intro hlen
    rw [addRest_eq, dif_neg (by omega)]
  · intro hlt
    refine ⟨by rw [addRest_eq, dif_pos hlt], ?_, ?_⟩
    · simpa using List.findIdx_getElem (w := hlt)
    · intro j hj
      simpa using List.not_of_lt_findIdx hj

theorem c2_witness :
    matchesGroup [eqDistA] eqDistB = true ∧
    addRest [[eqDistA]] eqDistB = [[eqDistA, eqDistB]] := by
  have hm : matchesGroup [eqDistA] eqDistB = true := by
    simp [matchesGroup, groupAid, groupMean, aidIdentity, resolvedMile, qVal,
      eqDistA, eqDistB]
    norm_num
  have hidx : ([[eqDistA]].findIdx fun g => matchesGroup g eqDistB) = 0 := by
    simp [List.findIdx_cons, hm]
  have h := ((c2_cluster_membership [[eqDistA]] eqDistB).2.2
    (by rw [hidx]; exact Nat.succ_pos 0)).1
  refine ⟨hm, ?_⟩
  rw [h]
  simp [hidx]

/-! ### Completeness of the combined selector output -/

theorem cardRunner_pick (g : List TaggedRest) (rid : ℕ) :
    cardRunner (match chooseBest (groupMean g) (runnerEvents g rid) with
      | some t => Card.real rid t
      | none => Card.placeholder rid (groupMean g) (repAidStation g)) = rid := by
  cases chooseBest (groupMean g) (runnerEvents g rid) <;> rfl

theorem filter_beq_of_nodup {l : List ℕ} (h : l.Nodup) {rid : ℕ}
    (hm : rid ∈ l) : l.filter (fun x => x == rid) = [rid] := by
  induction l with
  | nil => cases hm
  | cons a as ih =>
    rw [List.filter_cons]
    by_cases ha : a = rid
    · subst ha
      rw [if_pos (by simp)]
      have hnil : as.filter (fun x => x == a) = [] :=
        List.filter_eq_nil_iff.mpr fun x hx => by
          simp only [beq_iff_eq]
          exact fun hxa => (List.nodup_cons.mp h).1 (hxa ▸ hx)
      simp [hnil]
    · rw [if_neg (by simp [ha])]
      exact ih (List.nodup_cons.mp h).2
        (by rcases List.mem_cons.mp hm with h₁ | h₁
            · exact absurd h₁.symm ha
            · exact h₁)

/-- C3: for a cluster and a duplicate-free selected-runner list, the
combined selector output has exactly one record per selected runner (so
exactly R records over R runners): the runner's chosen real rest event
when the runner contributed at least one event to the cluster, otherwise
a placeholder carrying the cluster's mean mile and a representative
aid-station name. -/
theorem c3_selector_completeness (selected : List ℕ) (g : List TaggedRest)
    (hnd : selected.Nodup) :
    (groupCards selected g).length = selected.length ∧
    ∀ rid ∈ selected,
      (runnerEvents g rid = [] →
        (groupCards selected g).filter (fun c => cardRunner c == rid) =
          [Card.placeholder rid (groupMean g) (repAidStation g)]) ∧
      (∀ x xs, runnerEvents g rid = x :: xs →
        (groupCards selected g).filter (fun c => cardRunner c == rid) =
          [Card.real rid (xs.foldl (better (groupMean g)) x)]) := by
  have hfil : ∀ rid ∈ selected,
      (groupCards selected g).filter (fun c => cardRunner c == rid) =
        [match chooseBest (groupMean g) (runnerEvents g rid) with
         | some t => Card.real rid t
         | none => Card.placeholder rid (groupMean g) (repAidStation g)] := by
    intro rid hm
    unfold groupCards
    rw [List.filter_map]
    have hcomp : ((fun c => cardRunner c == rid) ∘
        fun r => (match chooseBest (groupMean g) (runnerEvents g r) with
          | some t => Card.real r t
          | none => Card.placeholder r (groupMean g) (repAidStation g))) =
        fun x => x == rid := by
      funext x
      simp only [Function.comp_apply, cardRunner_pick]
    rw [hcomp, filter_beq_of_nodup hnd hm]
    rfl
  refine ⟨by simp [groupCards], ?_⟩
  intro rid hm
  constructor
  · intro hnone
    rw [hfil rid hm, hnone]
    rfl
  · intro x xs hcons
    rw [hfil rid hm, hcons]
    rfl

theorem c3_witness :
    (groupCards [1, 2] [eqDistA, eqDistB]).length = 2 ∧
    (groupCards [1, 2] [eqDistA, eqDistB]).filter
        (fun c => cardRunner c == 2) =
      [Card.placeholder 2 (groupMean [eqDistA, eqDistB])
        (repAidStation [eqDistA, eqDistB])] := by
  have h := c3_selector_completeness [1, 2] [eqDistA, eqDistB] (by decide)
  exact ⟨h.1, (h.2 2 (by decide)).1 (by decide)⟩

/-! ### Input validation -/

/-- C4 counterexample: with a non-failed payload and an empty (but
present) selected-runner list, validation does not abort, although the
claim as stated says an empty list is a fatal condition: the JavaScript
guard `!runners.selectedRunners` is false for an empty array, which is
truthy. -/
theorem c4_counterexample :
    ¬(validationFails { status := "complete", error := none }
        { selectedRunners := some [] } = true ↔
      (("complete" = "failed") ∨ (some ([] : List ℕ)) = none ∨
        (some ([] : List ℕ)) = some [])) := by
  decide

/-- C4 (corrected): validation aborts iff the selected-runner list is
absent (undefined) or the top-level payload status is "failed"; an empty
but present selected-runner list does not abort. An absent list throws
the missing-runner-data error; a failed status throws the payload's
error message, or the default message when it is absent or empty. -/
theorem c4_amended_validation (p : AnalysesPayload) (r : RunnersState) :
    (validationFails p r = true ↔
      (r.selectedRunners = none ∨ p.status = "failed")) ∧
    (r.selectedRunners = none →
      validateInputs p r = Except.error "Missing runner data") ∧
    (∀ l e, r.selectedRunners = some l → p.status = "failed" →
      p.error = some e → e ≠ "" → validateInputs p r = Except.error e) ∧
    (∀ l, r.selectedRunners = some l → p.status = "failed" →
      p.error = none → validateInputs p r = Except.error "Analysis failed") ∧
    (∀ l, r.selectedRunners = some l → p.status ≠ "failed" →
      validateInputs p r = Except.ok ()) := by
  refine ⟨?_, ?_, ?_, ?_, ?_⟩
  · unfold validationFails validateInputs
    split_ifs with h₁ h₂ <;> simp_all
  · intro h
    unfold validateInputs
    rw [if_pos h]
  · intro l e hl hs he hne
    unfold validateInputs
    rw [if_neg (by simp [hl]), if_pos hs, he]
    simp [hne]
  · intro l hl hs he
    unfold validateInputs
    rw [if_neg (by simp [hl]), if_pos hs, he]
  · intro l hl hs
    unfold validateInputs
    rw [if_neg (by simp [hl]), if_neg hs]

theorem c4_witness :
    validationFails { status := "failed", error := some "boom" }
      { selectedRunners := some [1] } = true ∧
    validateInputs { status := "failed", error := some "boom" }
      { selectedRunners := some [1] } = Except.error "boom" ∧
    validateInputs { status := "complete", error := none }
      { selectedRunners := some [1] } = Except.ok () := by
  refine ⟨?_, ?_, ?_⟩
  · exact (c4_amended_validation { status := "failed", error := some "boom" }
      { selectedRunners := some [1] }).1.mpr (Or.inr rfl)
  · exact (c4_amended_validation { status := "failed", error := some "boom" }
      { selectedRunners := some [1] }).2.2.1 [1] "boom" rfl rfl rfl
      (by decide)
  · exact (c4_amended_validation { status := "complete", error := none }
      { selectedRunners := some [1] }).2.2.2.2 [1] rfl (by decide)

/-! ### Per-runner summary projection -/

/-- C8: the summary projection is total (it is a Lean function, so it
never throws) and defaults every missing field to its documented
sentinel: absent average fatigue and peak fatigue mile give "N/A", the
rest count prefers the nested collection length, then the flat-sequence
length, then 0, and absent strongest terrain or elevation tolerance give
"Unknown". -/
theorem c8_summary_sentinels (a : Analysis) :
    (a.fatigue_analysis.bind FatigueAnalysis.average_fatigue = none →
      (summaryRow a).averageFatigue = SummaryCell.sentinel "N/A") ∧
    (∀ q, a.fatigue_analysis.bind FatigueAnalysis.average_fatigue = some q →
      (summaryRow a).averageFatigue = SummaryCell.num q) ∧
    (a.fatigue_analysis.bind FatigueAnalysis.peak_fatigue_mile = none →
      (summaryRow a).peakFatigueMile = SummaryCell.sentinel "N/A") ∧
    (a.rest_periods = none → (summaryRow a).restCount = 0) ∧
    (∀ l, a.rest_periods = some (RestData.nested l) →
      (summaryRow a).restCount = l.length) ∧
    (∀ l, a.rest_periods = some (RestData.flat l) →
      (summaryRow a).restCount = l.length) ∧
    (a.course_analysis.bind CourseAnalysis.strongest_terrain = none →
      (summaryRow a).strongestTerrain = "Unknown") ∧
    (a.course_analysis.bind CourseAnalysis.elevation_tolerance = none →
      (summaryRow a).elevationTolerance = "Unknown") := by
  refine ⟨?_, ?_, ?_, ?_, ?_, ?_, ?_, ?_⟩
  · intro h
    cases hfa : a.fatigue_analysis with
    | none => simp [summaryRow, averageFatigueCell, hfa]
    | some fa =>
      rw [hfa] at h
      simp only [Option.some_bind] at h
      simp [summaryRow, averageFatigueCell, hfa, h]
  · intro q h
    cases hfa : a.fatigue_analysis with
    | none => rw [hfa] at h; simp at h
    | some fa =>
      rw [hfa] at h
      simp only [Option.some_bind] at h
      simp [summaryRow, averageFatigueCell, hfa, h]
  · intro h
    cases hfa : a.fatigue_analysis with
    | none => simp [summaryRow, peakFatigueMileCell, hfa]
    | some fa =>
      rw [hfa] at h
      simp only [Option.some_bind] at h
      simp [summaryRow, peakFatigueMileCell, hfa, h]
  · intro h
    simp [summaryRow, restCount, h]
  · intro l h
    simp only [summaryRow, restCount, h]
    by_cases hl : l.length = 0
    · simp [hl]
    · simp [hl]
  · intro l h
    simp [summaryRow, restCount, h]
  · intro h
    cases hca : a.course_analysis with
    | none => simp [summaryRow, strongestTerrainVal, hca]
    | some ca =>
      rw [hca] at h
      simp only [Option.some_bind] at h
      simp [summaryRow, strongestTerrainVal, hca, h]
  · intro h
    cases hca : a.course_analysis with
    | none => simp [summaryRow, elevationToleranceVal, hca]
    | some ca =>
      rw [hca] at h
      simp only [Option.some_bind] at h
      simp [summaryRow, elevationToleranceVal, hca, h]

theorem c8_witness :
    (summaryRow emptyAnalysis).averageFatigue = SummaryCell.sentinel "N/A" ∧
    (summaryRow emptyAnalysis).restCount = 0 ∧
    (summaryRow emptyAnalysis).strongestTerrain = "Unknown" := by
  have h := c8_summary_sentinels emptyAnalysis
  exact ⟨h.1 rfl, h.2.2.2.1 rfl, h.2.2.2.2.2.2.1 rfl⟩

/-! ### Per-name segment statistics -/

theorem find_statsUpdate (acc : List SegEntry) (p : PerfRec) (q : String) :
    (statsUpdate acc p).find? (fun e => e.name == q) =
      if p.name = q then
        entryFoldStep q (acc.find? (fun e => e.name == q)) p
      else acc.find? (fun e => e.name == q) := by
  induction acc with
  | nil =>
    by_cases h : p.name = q
    · subst h
      simp [statsUpdate, entryFoldStep, List.find?]
    · simp [statsUpdate, List.find?, beq_false_of_ne h, h]
  | cons e es ih =>
    simp only [statsUpdate]
    by_cases he : e.name = p.name
    · rw [if_pos he]
      by_cases h : p.name = q
      · have heq : e.name = q := he.trans h
        simp [List.find?_cons, heq, h, entryFoldStep]
      · have hne : ¬(e.name = q) := fun hh => h (he.symm.trans hh)
        simp [List.find?_cons, hne, h]
    · rw [if_neg he]
      by_cases hq : e.name = q
      · have hpq : ¬(p.name = q) := fun hh => he (hq.trans hh.symm)
        simp [List.find?_cons, hq, hpq]
      · simp [List.find?_cons, hq, ih]

theorem entryFold_some (q : String) (ps : List PerfRec) :
    ∀ e, ps.foldl (entryFoldStep q) (some e) =
      some { name := e.name
             difficulties := e.difficulties ++ ps.map PerfRec.difficulty
             performances := e.performances ++ ps.map PerfRec.performance
             count := e.count + ps.length } := by
  induction ps with
  | nil => intro e; simp
  | cons x xs ih =>
    intro e
    simp only [List.foldl_cons, entryFoldStep]
    rw [ih]
    simp [SegEntry.mk.injEq, List.append_assoc]
    omega

theorem entryFold_cons (q : String) (x : PerfRec) (xs : List PerfRec) :
    (x :: xs).foldl (entryFoldStep q) none =
      some { name := q
             difficulties := (x :: xs).map PerfRec.difficulty
             performances := (x :: xs).map PerfRec.performance
             count := (x :: xs).length } := by
  simp only [List.foldl_cons, entryFoldStep]
  rw [entryFold_some]
  simp [Nat.add_comm]

theorem foldl_stats_find (perfs : List PerfRec) (q : String) :
    ∀ acc, (perfs.foldl statsUpdate acc).find? (fun e => e.name == q) =
      (perfs.filter (fun p => p.name == q)).foldl (entryFoldStep q)
        (acc.find? (fun e => e.name == q)) := by
  induction perfs with
  | nil => intro acc; simp
  | cons p ps ih =>
    intro acc
    simp only [List.foldl_cons, List.filter_cons]
    by_cases h : p.name = q
    · rw [if_pos (by simp [h])]
      rw [ih (statsUpdate acc p), find_statsUpdate, if_pos h]
      simp only [List.foldl_cons]
    · rw [if_neg (by simp [h])]
      rw [ih (statsUpdate acc p), find_statsUpdate, if_neg h]

theorem segmentStats_find (perfs : List PerfRec) (q : String) :
    (segmentStats perfs).find? (fun e => e.name == q) =
      if perfs.filter (fun p => p.name == q) = [] then none
      else
        some { name := q
               difficulties :=
                 (perfs.filter fun p => p.name == q).map PerfRec.difficulty
               performances :=
                 (perfs.filter fun p => p.name == q).map PerfRec.performance
               count := (perfs.filter fun p => p.name == q).length } := by
  unfold segmentStats
  rw [foldl_stats_find]
  cases hf : perfs.filter (fun p => p.name == q) with
  | nil => simp
  | cons x xs =>
    rw [List.find?_nil, entryFold_cons]
    simp

theorem names_statsUpdate (acc : List SegEntry) (p : PerfRec) :
    (statsUpdate acc p).map SegEntry.name =
      dedupStep (acc.map SegEntry.name) p.name := by
  induction acc with
  | nil => simp [statsUpdate, dedupStep]
  | cons e es ih =>
    simp only [statsUpdate]
    by_cases he : e.name = p.name
    · rw [if_pos he]
      simp [dedupStep, he]
    · rw [if_neg he]
      by_cases hm : p.name ∈ es.map SegEntry.name
      · simp only [List.map_cons, ih, dedupStep]
        rw [if_pos hm, if_pos (by simp [hm])]
      · simp only [List.map_cons, ih, dedupStep]
        rw [if_neg hm,
          if_neg (by simp [hm]; exact fun hh => he hh.symm)]
        simp

theorem names_segmentStats (perfs : List PerfRec) :
    (segmentStats perfs).map SegEntry.name =
      firstDedup (perfs.map PerfRec.name) := by
  unfold segmentStats firstDedup
  have hgen : ∀ (l : List PerfRec) (acc : List SegEntry),
      (l.foldl statsUpdate acc).map SegEntry.name =
        (l.map PerfRec.name).foldl dedupStep (acc.map SegEntry.name) := by
    intro l
    induction l with
    | nil => intro acc; rfl
    | cons p ps ih =>
      intro acc
      simp only [List.foldl_cons, List.map_cons]
      rw [ih, names_statsUpdate]
  simpa using hgen perfs []

theorem nodup_foldl_dedupStep (l : List String) :
    ∀ acc : List String, acc.Nodup → (l.foldl dedupStep acc).Nodup := by
  induction l with
  | nil => intro acc h; exact h
  | cons x xs ih =>
    intro acc h
    simp only [List.foldl_cons]
    apply ih
    unfold dedupStep
    by_cases hm : x ∈ acc
    · rwa [if_pos hm]
    · rw [if_neg hm]
      simp [List.nodup_append, h, hm]

theorem firstDedup_nodup (l : List String) : (firstDedup l).Nodup :=
  nodup_foldl_dedupStep l [] List.nodup_nil

theorem find_of_mem_nodup_key {α : Type} (key : α → String) :
    ∀ (l : List α), (l.map key).Nodup → ∀ e ∈ l,
      l.find? (fun x => key x == key e) = some e := by
  intro l
  induction l with
  | nil => intro _ e he; cases he
  | cons a as ih =>
    intro hnd e he
    rcases List.mem_cons.mp he with h₁ | h₁
    · subst h₁
      simp [List.find?_cons]
    · have hk : ¬(key a = key e) := by
        intro hk
        have hmm : key e ∈ as.map key := List.mem_map_of_mem key h₁
        rw [← hk] at hmm
        exact (List.nodup_cons.mp (by simpa using hnd)).1 hmm
      rw [List.find?_cons_of_neg _ (by simpa using hk)]
      exact ih (List.nodup_cons.mp (by simpa using hnd)).2 e h₁

/-! ### Stability of the sorts -/

theorem filter_mergeSort {α : Type} (le : α → α → Bool)
    (htrans : ∀ a b c, le a b → le b c → le a c)
    (htotal : ∀ a b, le a b || le b a)
    (l : List α) (P : α → Bool)
    (hP : ∀ a b, P a = true → P b = true → le a b = true) :
    (l.mergeSort le).filter P = l.filter P := by
  have hpw : (l.filter P).Pairwise (fun a b => le a b = true) := by
    apply List.pairwise_of_forall_mem_list
    intro a ha b hb
    exact hP a b (List.mem_filter.mp ha).2 (List.mem_filter.mp hb).2
  have hsub : List.Sublist (l.filter P) (l.mergeSort le) :=
    List.sublist_mergeSort htrans htotal hpw (List.filter_sublist l)
  have hid : (l.filter P).filter P = l.filter P :=
    List.filter_eq_self.mpr fun a ha => (List.mem_filter.mp ha).2
  have hsub2 : List.Sublist (l.filter P) ((l.mergeSort le).filter P) := by
    have h2 := hsub.filter P
    rwa [hid] at h2
  have hperm : List.Perm ((l.mergeSort le).filter P) (l.filter P) :=
    (List.mergeSort_perm l le).filter P
  exact (hsub2.eq_of_length hperm.length_eq.symm).symm

theorem diffGE_trans (a b c : SegStat) (hab : diffGE a b = true)
    (hbc : diffGE b c = true) : diffGE a c = true := by
  simp only [diffGE, decide_eq_true_eq] at *
  linarith

theorem diffGE_total (a b : SegStat) : diffGE a b || diffGE b a := by
  simp only [diffGE, Bool.or_eq_true, decide_eq_true_eq]
  exact le_total _ _

/-! ### The critical-segments ranking -/

/-- C5: the critical-segments ranking takes the first 5 of the distinct
segment aggregates sorted descending by mean difficulty; the sorted list
is descending; each aggregate's mean difficulty, mean performance and
count are taken over exactly the contributions whose segment name
matches (so a runner without that segment is excluded from the mean, not
counted as zero); the distinct aggregates are keyed in first-encounter
order, and the sort is stable: within any tied mean difficulty the
first-encounter order is preserved. -/
theorem c5_critical_segments (selected : List ℕ)
    (analyses : ℕ → Option Analysis) :
    criticalSegments selected analyses =
      ((statEntries (segmentPerformances selected analyses)).mergeSort
        diffGE).take 5 ∧
    ((statEntries (segmentPerformances selected analyses)).mergeSort
      diffGE).Pairwise (fun a b => b.avgDifficulty ≤ a.avgDifficulty) ∧
    (∀ s ∈ statEntries (segmentPerformances selected analyses),
      s.avgDifficulty =
        (((segmentPerformances selected analyses).filter
          (fun p => p.name == s.name)).map PerfRec.difficulty).sum /
        (((segmentPerformances selected analyses).filter
          (fun p => p.name == s.name)).length : ℚ) ∧
      s.avgPerformance =
        (((segmentPerformances selected analyses).filter
          (fun p => p.name == s.name)).map PerfRec.performance).sum /
        (((segmentPerformances selected analyses).filter
          (fun p => p.name == s.name)).length : ℚ) ∧
      s.count = ((segmentPerformances selected analyses).filter
          (fun p => p.name == s.name)).length) ∧
    (statEntries (segmentPerformances selected analyses)).map SegStat.name =
      firstDedup ((segmentPerformances selected analyses).map PerfRec.name) ∧
    (∀ k : ℚ,
      (((statEntries (segmentPerformances selected analyses)).mergeSort
        diffGE).filter fun s => s.avgDifficulty == k) =
      ((statEntries (segmentPerformances selected analyses)).filter
        fun s => s.avgDifficulty == k)) := by
  refine ⟨rfl, ?_, ?_, ?_, ?_⟩
  · have hs := List.sorted_mergeSort diffGE_trans diffGE_total
      (statEntries (segmentPerformances selected analyses))
    exact hs.imp fun h => by simpa [diffGE] using h
  · intro s hs
    obtain ⟨e, he, rfl⟩ := List.mem_map.mp hs
    have hnd : ((segmentStats (segmentPerformances selected analyses)).map
        SegEntry.name).Nodup := by
      rw [names_segmentStats]
      exact firstDedup_nodup _
    have hf := find_of_mem_nodup_key SegEntry.name _ hnd e he
    rw [segmentStats_find] at hf
    by_cases hnil : (segmentPerformances selected analyses).filter
        (fun p => p.name == e.name) = []
    · rw [if_pos hnil] at hf
      cases hf
    · rw [if_neg hnil] at hf
      have he2 := (Option.some.inj hf).symm
      refine ⟨?_, ?_, ?_⟩ <;> rw [he2] <;> rfl
  · simp only [statEntries, List.map_map]
    exact names_segmentStats _
  · intro k
    apply filter_mergeSort diffGE diffGE_trans diffGE_total
    intro a b ha hb
    simp only [beq_iff_eq] at ha hb
    simp [diffGE, ha, hb]

theorem c5_witness :
    sCrown.avgDifficulty =
      (((segmentPerformances [1, 2] analysesPair).filter
        (fun p => p.name == sCrown.name)).map PerfRec.difficulty).sum /
      (((segmentPerformances [1, 2] analysesPair).filter
        (fun p => p.name == sCrown.name)).length : ℚ) ∧
    sCrown.count = ((segmentPerformances [1, 2] analysesPair).filter
        (fun p => p.name == sCrown.name)).length := by
  have hmem : sCrown ∈ statEntries (segmentPerformances [1, 2] analysesPair) := by
    simp [statEntries, segmentStats, segmentPerformances, analysesPair,
      segOnlyAnalysis, crownSeg1, crownSeg2, statsUpdate, qVal,
      sCrown, statMk, List.foldl_cons, List.foldl_nil]
    norm_num
  have h := (c5_critical_segments [1, 2] analysesPair).2.2.1 sCrown hmem
  exact ⟨h.1, h.2.2⟩

/-! ### Permutation behavior of the ranking -/

theorem statEntries_find (perfs : List PerfRec) (q : String) :
    (statEntries perfs).find? (fun s => s.name == q) =
      ((segmentStats perfs).find? (fun e => e.name == q)).map statMk := by
  unfold statEntries
  rw [List.find?_map]
  rfl

theorem statEntries_names (perfs : List PerfRec) :
    (statEntries perfs).map SegStat.name =
      (segmentStats perfs).map SegEntry.name := by
  simp only [statEntries, List.map_map]
  rfl

theorem statLookup_perm (perfsA perfsB : List PerfRec)
    (hp : List.Perm perfsA perfsB) (q : String) :
    (statEntries perfsA).find? (fun s => s.name == q) =
      (statEntries perfsB).find? (fun s => s.name == q) := by
  rw [statEntries_find, statEntries_find, segmentStats_find, segmentStats_find]
  have hfil : List.Perm (perfsA.filter fun p => p.name == q)
      (perfsB.filter fun p => p.name == q) := hp.filter _
  by_cases hnil : perfsA.filter (fun p => p.name == q) = []
  · have hnilB : perfsB.filter (fun p => p.name == q) = [] := by
      rw [hnil] at hfil
      exact hfil.symm.eq_nil
    rw [if_pos hnil, if_pos hnilB]
  · have hnilB : ¬(perfsB.filter (fun p => p.name == q) = []) := by
      intro hB
      rw [hB] at hfil
      exact hnil hfil.eq_nil
    rw [if_neg hnil, if_neg hnilB]
    have hlen := hfil.length_eq
    have hsumd := ((hfil.map PerfRec.difficulty).sum_eq :
      ((perfsA.filter fun p => p.name == q).map PerfRec.difficulty).sum = _)
    have hsump := ((hfil.map PerfRec.performance).sum_eq :
      ((perfsA.filter fun p => p.name == q).map PerfRec.performance).sum = _)
    simp [statMk, hlen, hsumd, hsump]

theorem statEntries_names_nodup (perfs : List PerfRec) :
    ((statEntries perfs).map SegStat.name).Nodup := by
  rw [statEntries_names, names_segmentStats]
  exact firstDedup_nodup _

theorem mem_statEntries_iff_find (perfs : List PerfRec) (s : SegStat) :
    s ∈ statEntries perfs ↔
      (statEntries perfs).find? (fun x => x.name == s.name) = some s := by
  constructor
  · exact find_of_mem_nodup_key SegStat.name _ (statEntries_names_nodup perfs) s
  · exact List.mem_of_find?_eq_some

theorem statEntries_perm (perfsA perfsB : List PerfRec)
    (hp : List.Perm perfsA perfsB) :
    List.Perm (statEntries perfsA) (statEntries perfsB) := by
  rw [List.perm_iff_count]
  intro s
  have hndA : (statEntries perfsA).Nodup :=
    (statEntries_names_nodup perfsA).of_map
  have hndB : (statEntries perfsB).Nodup :=
    (statEntries_names_nodup perfsB).of_map
  by_cases hmA : s ∈ statEntries perfsA
  · have hmB : s ∈ statEntries perfsB := by
      rw [mem_statEntries_iff_find] at hmA ⊢
      rw [← statLookup_perm perfsA perfsB hp s.name]
      exact hmA
    rw [List.count_eq_one_of_mem hndA hmA, List.count_eq_one_of_mem hndB hmB]
  · have hmB : s ∉ statEntries perfsB := by
      intro hc
      apply hmA
      rw [mem_statEntries_iff_find] at hc ⊢
      rw [statLookup_perm perfsA perfsB hp s.name]
      exact hc
    rw [List.count_eq_zero_of_not_mem hmA, List.count_eq_zero_of_not_mem hmB]

theorem sorted_eq_of_perm_nodup_keys :
    ∀ l₁ l₂ : List SegStat, List.Perm l₁ l₂ →
      l₁.Pairwise (fun a b => diffGE a b = true) →
      l₂.Pairwise (fun a b => diffGE a b = true) →
      (l₁.map SegStat.avgDifficulty).Nodup → l₁ = l₂ := by
  intro l₁
  induction l₁ with
  | nil =>
    intro l₂ hp _ _ _
    exact (hp.symm.eq_nil).symm
  | cons a t₁ ih =>
    intro l₂ hp hs₁ hs₂ hnd
    cases l₂ with
    | nil => cases hp.eq_nil
    | cons b t₂ =>
      by_cases hab : a = b
      · subst hab
        have ht : List.Perm t₁ t₂ := hp.cons_inv
        rw [ih t₂ ht (List.pairwise_cons.mp hs₁).2 (List.pairwise_cons.mp hs₂).2
          (by simpa using (List.nodup_cons.mp (by simpa using hnd)).2)]
      · exfalso
        have hbt : b ∈ t₁ := by
          rcases List.mem_cons.mp (hp.mem_iff.mpr (List.mem_cons_self b t₂))
            with h | h
          · exact absurd h.symm hab
          · exact h
        have hat : a ∈ t₂ := by
          rcases List.mem_cons.mp (hp.mem_iff.mp (List.mem_cons_self a t₁))
            with h | h
          · exact absurd h hab
          · exact h
        have h1 : b.avgDifficulty ≤ a.avgDifficulty := by
          have hx := (List.pairwise_cons.mp hs₁).1 b hbt
          simpa [diffGE] using hx
        have h2 : a.avgDifficulty ≤ b.avgDifficulty := by
          have hx := (List.pairwise_cons.mp hs₂).1 a hat
          simpa [diffGE] using hx
        have hmem : a.avgDifficulty ∈ t₁.map SegStat.avgDifficulty := by
          rw [le_antisymm h2 h1]
          exact List.mem_map_of_mem _ hbt
        exact (List.nodup_cons.mp (by simpa using hnd)).1 hmem

/-- C7 (corrected): permuting the selected runner ids leaves every
distinct segment's aggregate record (mean difficulty, mean performance,
contributing-runner count, looked up by name) unchanged, and leaves the
entire critical-segments ranking unchanged provided the distinct
segments' mean difficulties are pairwise distinct; with tied mean
difficulties the order among tied segments follows first-encounter
order, which can change with the runner order. -/
theorem c7_ranking_permutation (analyses : ℕ → Option Analysis)
    (selA selB : List ℕ) (hp : List.Perm selA selB) :
    (∀ q : String,
      (statEntries (segmentPerformances selA analyses)).find?
        (fun s => s.name == q) =
      (statEntries (segmentPerformances selB analyses)).find?
        (fun s => s.name == q)) ∧
    (((statEntries (segmentPerformances selA analyses)).map
        SegStat.avgDifficulty).Nodup →
      criticalSegments selA analyses = criticalSegments selB analyses) := by
  have hpp : List.Perm (segmentPerformances selA analyses)
      (segmentPerformances selB analyses) := by
    unfold segmentPerformances
    exact List.Perm.flatMap_right _ hp
  refine ⟨fun q => statLookup_perm _ _ hpp q, fun hnd => ?_⟩
  have hep := statEntries_perm _ _ hpp
  have hsp : List.Perm
      ((statEntries (segmentPerformances selA analyses)).mergeSort diffGE)
      ((statEntries (segmentPerformances selB analyses)).mergeSort diffGE) :=
    ((List.mergeSort_perm _ diffGE).trans hep).trans
      (List.mergeSort_perm _ diffGE).symm
  have hnd₂ : (((statEntries (segmentPerformances selA analyses)).mergeSort
      diffGE).map SegStat.avgDifficulty).Nodup :=
    (((List.mergeSort_perm _ diffGE).map SegStat.avgDifficulty).nodup_iff).mpr
      hnd
  have heq := sorted_eq_of_perm_nodup_keys _ _ hsp
    (List.sorted_mergeSort diffGE_trans diffGE_total _)
    (List.sorted_mergeSort diffGE_trans diffGE_total _) hnd₂
  unfold criticalSegments
  rw [heq]

theorem c7_witness :
    criticalSegments [1, 2] analysesPair =
      criticalSegments [2, 1] analysesPair := by
  apply (c7_ranking_permutation analysesPair [1, 2] [2, 1] (by decide)).2
  have hA : segmentStats (segmentPerformances [1, 2] analysesPair) =
      [{ name := "Crown King to Whiskey Row", difficulties := [7/2, 9/2],
         performances := [1/2, 1/2], count := 2 }] := by
    rfl
  simp [statEntries, hA]

/-- C7 counterexample: two runners whose single segments tie on mean
difficulty: permuting the runner order permutes the ranking order, so
the ranking (identities and order) is not invariant as claimed. -/
theorem c7_counterexample :
    List.Perm [2, 1] [1, 2] ∧
    criticalSegments [1, 2] analysesTie ≠ criticalSegments [2, 1] analysesTie := by
  constructor
  · decide
  · have hA : statEntries (segmentPerformances [1, 2] analysesTie) =
        [statMk { name := "Alpha", difficulties := [3], performances := [1],
                  count := 1 },
         statMk { name := "Beta", difficulties := [3], performances := [1],
                  count := 1 }] := by
      rfl
    have hB : statEntries (segmentPerformances [2, 1] analysesTie) =
        [statMk { name := "Beta", difficulties := [3], performances := [1],
                  count := 1 },
         statMk { name := "Alpha", difficulties := [3], performances := [1],
                  count := 1 }] := by
      rfl
    have hsA : criticalSegments [1, 2] analysesTie =
        statEntries (segmentPerformances [1, 2] analysesTie) := by
      unfold criticalSegments
      rw [List.mergeSort_of_sorted (by rw [hA]; simp [diffGE, statMk])]
      rw [hA]
      rfl
    have hsB : criticalSegments [2, 1] analysesTie =
        statEntries (segmentPerformances [2, 1] analysesTie) := by
      unfold criticalSegments
      rw [List.mergeSort_of_sorted (by rw [hB]; simp [diffGE, statMk])]
      rw [hB]
      rfl
    rw [hsA, hsB, hA, hB]
    simp [statMk]

/-! ### Sorting of the clustering input and output -/

theorem mileLE_trans (a b c : TaggedRest) (hab : mileLE a b = true)
    (hbc : mileLE b c = true) : mileLE a c = true := by
  simp only [mileLE, decide_eq_true_eq] at *
  linarith

theorem mileLE_total (a b : TaggedRest) : mileLE a b || mileLE b a := by
  simp only [mileLE, Bool.or_eq_true, decide_eq_true_eq]
  exact le_total _ _

theorem groupLE_trans (a b c : List TaggedRest) (hab : groupLE a b = true)
    (hbc : groupLE b c = true) : groupLE a c = true := by
  simp only [groupLE, decide_eq_true_eq] at *
  linarith

theorem groupLE_total (a b : List TaggedRest) : groupLE a b || groupLE b a := by
  simp only [groupLE, Bool.or_eq_true, decide_eq_true_eq]
  exact le_total _ _

theorem mem_flatRests (selected : List ℕ) (analyses : ℕ → Option Analysis)
    (t : TaggedRest) (ht : t ∈ flatRests selected analyses) :
    hasLocation t.rest = true := by
  simp only [flatRests, List.mem_flatMap, List.mem_map, List.mem_filter]
    at ht
  obtain ⟨rid, _, r, ⟨_, hr⟩, rfl⟩ := ht
  exact hr

/-- C9: the clustering input is a permutation of the flattened
filtered (runner, rest event) pairs, sorted ascending by resolved mile,
with ties preserving original encounter order (the subsequence at any
fixed mile is unchanged); only events with a resolvable mile enter; and
the output clusters are sorted ascending by their final mean mile. -/
theorem c9_sort_behavior (selected : List ℕ)
    (analyses : ℕ → Option Analysis) :
    List.Perm (sortedRests selected analyses) (flatRests selected analyses) ∧
    (sortedRests selected analyses).Pairwise
      (fun a b => resolvedMile a.rest ≤ resolvedMile b.rest) ∧
    (∀ m : ℚ,
      (sortedRests selected analyses).filter
          (fun t => resolvedMile t.rest == m) =
        (flatRests selected analyses).filter
          (fun t => resolvedMile t.rest == m)) ∧
    (∀ t ∈ flatRests selected analyses, hasLocation t.rest = true) ∧
    (sortedGroups selected analyses).Pairwise
      (fun g₁ g₂ => groupMean g₁ ≤ groupMean g₂) := by
  refine ⟨List.mergeSort_perm _ _, ?_, ?_, mem_flatRests selected analyses, ?_⟩
  · have hs := List.sorted_mergeSort mileLE_trans mileLE_total
      (flatRests selected analyses)
    exact hs.imp fun h => by simpa [mileLE] using h
  · intro m
    apply filter_mergeSort mileLE mileLE_trans mileLE_total
    intro a b ha hb
    simp only [beq_iff_eq] at ha hb
    simp [mileLE, ha, hb]
  · have hs := List.sorted_mergeSort groupLE_trans groupLE_total
      (restGroups selected analyses)
    exact hs.imp fun h => by simpa [groupLE] using h

theorem c9_witness : hasLocation sampleHi.rest = true :=
  (c9_sort_behavior [1] analysesRest).2.2.2.1 sampleHi (by decide)

/-! ### Resolved miles and the location filter -/

theorem mem_of_mem_addRest :
    ∀ (groups : List (List TaggedRest)) (r t : TaggedRest)
      (g : List TaggedRest), g ∈ addRest groups r → t ∈ g →
      (∃ g₀ ∈ groups, t ∈ g₀) ∨ t = r := by
  intro groups
  induction groups with
  | nil =>
    intro r t g hg ht
    simp only [addRest, List.mem_singleton] at hg
    subst hg
    right
    simpa using ht
  | cons g₀ gs ih =>
    intro r t g hg ht
    simp only [addRest] at hg
    by_cases hm : matchesGroup g₀ r = true
    · rw [if_pos hm] at hg
      rcases List.mem_cons.mp hg with h | h
      · subst h
        rcases List.mem_append.mp ht with h₁ | h₁
        · exact Or.inl ⟨g₀, List.mem_cons_self _ _, h₁⟩
        · right
          simpa using h₁
      · exact Or.inl ⟨g, List.mem_cons_of_mem _ h, ht⟩
    · rw [if_neg hm] at hg
      rcases List.mem_cons.mp hg with h | h
      · subst h
        exact Or.inl ⟨g, List.mem_cons_self _ _, ht⟩
      · rcases ih r t g h ht with ⟨g₁, hg₁, ht₁⟩ | h₁
        · exact Or.inl ⟨g₁, List.mem_cons_of_mem _ hg₁, ht₁⟩
        · exact Or.inr h₁

theorem mem_of_mem_foldl_addRest :
    ∀ (l : List TaggedRest) (acc : List (List TaggedRest))
      (g : List TaggedRest) (t : TaggedRest),
      g ∈ l.foldl addRest acc → t ∈ g →
      (∃ g₀ ∈ acc, t ∈ g₀) ∨ t ∈ l := by
  intro l
  induction l with
  | nil =>
    intro acc g t hg ht
    exact Or.inl ⟨g, hg, ht⟩
  | cons r rs ih =>
    intro acc g t hg ht
    simp only [List.foldl_cons] at hg
    rcases ih (addRest acc r) g t hg ht with ⟨g₀, hg₀, ht₀⟩ | h₁
    · rcases mem_of_mem_addRest acc r t g₀ hg₀ ht₀ with ⟨g₁, hg₁, ht₁⟩ | h₂
      · exact Or.inl ⟨g₁, hg₁, ht₁⟩
      · right
        rw [h₂]
        exact List.mem_cons_self _ _
    · exact Or.inr (List.mem_cons_of_mem _ h₁)

/-- C10: an event's resolved mile is its `mile` field when present and
nonzero, otherwise its `start_mile` value (0 when that too is absent);
an event is excluded from the clustering input iff both fields are
absent or zero; every event in the clustering input, and every member of
every produced cluster, passed that filter — so a rest event at exactly
mile 0 with no start mile appears in no cluster. -/
theorem c10_mile_resolution :
    (∀ (e : RestEvent) (m : ℚ), e.mile = some m → m ≠ 0 →
      resolvedMile e = m) ∧
    (∀ e : RestEvent, (e.mile = none ∨ e.mile = some 0) →
      resolvedMile e = qVal e.start_mile) ∧
    (∀ e : RestEvent, hasLocation e = false ↔
      ((e.mile = none ∨ e.mile = some 0) ∧
        (e.start_mile = none ∨ e.start_mile = some 0))) ∧
    (∀ (selected : List ℕ) (analyses : ℕ → Option Analysis)
      (t : TaggedRest), t ∈ flatRests selected analyses →
        hasLocation t.rest = true) ∧
    (∀ (selected : List ℕ) (analyses : ℕ → Option Analysis)
      (g : List TaggedRest) (t : TaggedRest),
      g ∈ sortedGroups selected analyses → t ∈ g →
        hasLocation t.rest = true) := by
  refine ⟨?_, ?_, ?_, ?_, ?_⟩
  · intro e m hm hne
    simp [resolvedMile, qVal, hm, hne]
  · intro e hm
    rcases hm with h | h <;> simp [resolvedMile, qVal, h]
  · intro e
    constructor
    · intro h
      simp only [hasLocation, Bool.or_eq_false_iff, decide_eq_false_iff_not,
        not_not] at h
      constructor
      · cases hm : e.mile with
        | none => exact Or.inl rfl
        | some m =>
          right
          have hz := h.1
          rw [hm] at hz
          simp only [qVal] at hz
          rw [hz]
      · cases hm : e.start_mile with
        | none => exact Or.inl rfl
        | some m =>
          right
          have hz := h.2
          rw [hm] at hz
          simp only [qVal] at hz
          rw [hz]
    · rintro ⟨h₁, h₂⟩
      rcases h₁ with h₁ | h₁ <;> rcases h₂ with h₂ | h₂ <;>
        simp [hasLocation, qVal, h₁, h₂]
  · exact mem_flatRests
  · intro selected analyses g t hg ht
    rw [sortedGroups, List.mem_mergeSort] at hg
    rcases mem_of_mem_foldl_addRest (sortedRests selected analyses) [] g t
        hg ht with ⟨g₀, hg₀, _⟩ | h₁
    · cases hg₀
    · exact mem_flatRests selected analyses t
        ((List.mergeSort_perm _ mileLE).mem_iff.mp h₁)

theorem c10_witness :
    hasLocation mileZeroEvent = false ∧
    resolvedMile mileZeroEvent = qVal mileZeroEvent.start_mile := by
  refine ⟨?_, ?_⟩
  · exact (c10_mile_resolution.2.2.1 mileZeroEvent).mpr
      ⟨Or.inr rfl, Or.inl rfl⟩
  · exact c10_mile_resolution.2.1 mileZeroEvent (Or.inr rfl)

end UltraSmart
